import Mathlib

/-
  Verification development for the Kelvin_STEM repository.

  Shallow embedding of:
  - Kelvin_STEM/process/polar.py    (discfloat, polarttransform)
  - Kelvin_STEM/io/read.py          (read_mib_to_np)
  - Kelvin_STEM/io/directorylisting.py (file_list)

  Numeric idealisation: numpy float64 arithmetic is modelled by exact real
  arithmetic; python and numpy integers are modelled by Int and Nat, and the
  astype int16 casts of polar.py are modelled explicitly as wrapping
  conversions modulo 2 to the 16.
-/

open Real

/-- Two-dimensional numpy array: explicit dimensions together with a total
entry function.  Entries at indices outside the dimensions are irrelevant
padding that no operation below ever consumes. -/
structure Arr2 where
  rows : ℕ
  cols : ℕ
  entry : ℕ → ℕ → ℝ

/-- Three-dimensional numpy array, same convention as Arr2. -/
structure Arr3 where
  d0 : ℕ
  d1 : ℕ
  d2 : ℕ
  entry : ℕ → ℕ → ℕ → ℝ

/-- A.reshape(d0, d1) applied to a linear (flattened, row-major) vector of
values: entry (a, b) is element a * d1 + b of the vector. -/
def reshape2 (v : ℕ → ℝ) (d0 d1 : ℕ) : Arr2 where
  rows := d0
  cols := d1
  entry := fun a b => v (a * d1 + b)

/-- Numpy .T on a 2D array. -/
def transpose (A : Arr2) : Arr2 where
  rows := A.cols
  cols := A.rows
  entry := fun a b => A.entry b a

/-- Elementwise product of two same-shape 2D arrays (numpy * with equal
shapes, no broadcasting needed at the one use site). -/
def emul (A B : Arr2) : Arr2 where
  rows := A.rows
  cols := A.cols
  entry := fun a b => A.entry a b * B.entry a b

/-- Numpy basic integer indexing of one axis of extent n with a (possibly
negative) index i: valid for -n ≤ i < n, where a negative index wraps to
i + n; anything else raises IndexError (modelled as none). -/
def npIndex (n : ℕ) (i : ℤ) : Option ℕ :=
  if 0 ≤ i ∧ i < (n : ℤ) then some i.toNat
  else if -(n : ℤ) ≤ i ∧ i < 0 then some (i + (n : ℤ)).toNat
  else none

/-- DP[i, j] for integer (possibly negative) indices, with numpy wrapping
and IndexError semantics. -/
def Arr2.get (A : Arr2) (i j : ℤ) : Option ℝ :=
  match npIndex A.rows i, npIndex A.cols j with
  | some a, some b => some (A.entry a b)
  | _, _ => none

/-- Wrapping conversion to numpy int16 (astype int16 on integral values). -/
def toInt16 (z : ℤ) : ℤ := (z + 2 ^ 15) % 2 ^ 16 - 2 ^ 15

/-- np.round with decimals 0: round half to even (banker rounding), as an
exact operation on reals. -/
noncomputable def npRound (x : ℝ) : ℤ :=
  if Int.fract x = 1 / 2 then (if 2 ∣ ⌊x⌋ then ⌊x⌋ else ⌊x⌋ + 1)
  else round x

/-- Shallow embedding of discfloat (process/polar.py, lines 46 to 52).

phi = np.arange(0, 2*pi, 2*pi/segments) has exactly segments entries
phi_s = s * (2*pi/segments) in exact real arithmetic;
r = np.arange(rmin, rmax) has (rmax - rmin).toNat entries r_k = rmin + k;
np.meshgrid(r, phi) uses the default xy indexing, so both meshes have shape
(segments, rmax - rmin); i = -r*sin(phi) + ci and j = r*cos(phi) + cj are
elementwise, and np.array([i, j]) stacks them into shape
(2, segments, rmax - rmin): axis 1 is azimuth, axis 2 is radius. -/
noncomputable def discfloat (ci cj : ℝ) (rmin rmax : ℤ) (segments : ℕ) : Arr3 where
  d0 := 2
  d1 := segments
  d2 := (rmax - rmin).toNat
  entry := fun c s k =>
    if c = 0 then
      -((rmin : ℝ) + (k : ℝ)) * Real.sin ((s : ℝ) * (2 * π / (segments : ℝ))) + ci
    else
      ((rmin : ℝ) + (k : ℝ)) * Real.cos ((s : ℝ) * (2 * π / (segments : ℝ))) + cj

/-- Component c of the disc mesh after flattening its (segments, R) plane
row-major, as done by the reshape calls in polarttransform: linear index m
corresponds to azimuth index m / R and radius index m % R, with
R = rmax - rmin. -/
noncomputable def discFlat (ci cj : ℝ) (rmin rmax : ℤ) (segments : ℕ) (c m : ℕ) : ℝ :=
  (discfloat ci cj rmin rmax segments).entry c
    (m / (rmax - rmin).toNat) (m % (rmax - rmin).toNat)

/-- Simple-mode integer sample position: np.round then astype int16
(component c, flattened position m).  This is pos2[c][m] in the source. -/
noncomputable def simplePos (ci cj : ℝ) (rmin rmax : ℤ) (segments : ℕ) (c m : ℕ) : ℤ :=
  toInt16 (npRound (discFlat ci cj rmin rmax segments c m))

/-- Simple-mode pixel lookup DP[pos2[0][m], pos2[1][m]] with numpy indexing
semantics. -/
noncomputable def simpleLookup (DP : Arr2) (ci cj : ℝ) (rmin rmax : ℤ) (segments : ℕ)
    (m : ℕ) : Option ℝ :=
  DP.get (simplePos ci cj rmin rmax segments 0 m) (simplePos ci cj rmin rmax segments 1 m)

/-- The fancy-indexing step of the simple branch succeeds: every flattened
sample position is a valid (possibly wrapped) index into DP. -/
def simpleOk (DP : Arr2) (ci cj : ℝ) (rmin rmax : ℤ) (segments : ℕ) : Prop :=
  ∀ m < segments * (rmax - rmin).toNat,
    (simpleLookup DP ci cj rmin rmax segments m).isSome = true

/-- Bilinear branch: ui = np.floor(disc0).astype(int16). -/
noncomputable def bUi (ci cj : ℝ) (rmin rmax : ℤ) (segments : ℕ) (m : ℕ) : ℤ :=
  toInt16 ⌊discFlat ci cj rmin rmax segments 0 m⌋

/-- Bilinear branch: np.ceil(disc0).astype(int16), before the exact-hit fix. -/
noncomputable def bLiRaw (ci cj : ℝ) (rmin rmax : ℤ) (segments : ℕ) (m : ℕ) : ℤ :=
  toInt16 ⌈discFlat ci cj rmin rmax segments 0 m⌉

/-- Bilinear branch: li = np.where(li == ui, li + 1, li), the addition
performed in int16. -/
noncomputable def bLi (ci cj : ℝ) (rmin rmax : ℤ) (segments : ℕ) (m : ℕ) : ℤ :=
  if bLiRaw ci cj rmin rmax segments m = bUi ci cj rmin rmax segments m then
    toInt16 (bLiRaw ci cj rmin rmax segments m + 1)
  else bLiRaw ci cj rmin rmax segments m

/-- Bilinear branch: lj = np.floor(disc1).astype(int16). -/
noncomputable def bLj (ci cj : ℝ) (rmin rmax : ℤ) (segments : ℕ) (m : ℕ) : ℤ :=
  toInt16 ⌊discFlat ci cj rmin rmax segments 1 m⌋

/-- Bilinear branch: np.ceil(disc1).astype(int16), before the exact-hit fix. -/
noncomputable def bRjRaw (ci cj : ℝ) (rmin rmax : ℤ) (segments : ℕ) (m : ℕ) : ℤ :=
  toInt16 ⌈discFlat ci cj rmin rmax segments 1 m⌉

/-- Bilinear branch: rj = np.where(rj == lj, lj + 1, rj), the addition
performed in int16. -/
noncomputable def bRj (ci cj : ℝ) (rmin rmax : ℤ) (segments : ℕ) (m : ℕ) : ℤ :=
  if bRjRaw ci cj rmin rmax segments m = bLj ci cj rmin rmax segments m then
    toInt16 (bLj ci cj rmin rmax segments m + 1)
  else bRjRaw ci cj rmin rmax segments m

/-- Weighting parameter upper left: (1 - (disc0 - ui)) * (1 - (disc1 - lj)). -/
noncomputable def wUL (ci cj : ℝ) (rmin rmax : ℤ) (segments : ℕ) (m : ℕ) : ℝ :=
  (1 - (discFlat ci cj rmin rmax segments 0 m - (bUi ci cj rmin rmax segments m : ℝ))) *
  (1 - (discFlat ci cj rmin rmax segments 1 m - (bLj ci cj rmin rmax segments m : ℝ)))

/-- Weighting parameter upper right: (1 - (disc0 - ui)) * (1 - (rj - disc1)). -/
noncomputable def wUR (ci cj : ℝ) (rmin rmax : ℤ) (segments : ℕ) (m : ℕ) : ℝ :=
  (1 - (discFlat ci cj rmin rmax segments 0 m - (bUi ci cj rmin rmax segments m : ℝ))) *
  (1 - ((bRj ci cj rmin rmax segments m : ℝ) - discFlat ci cj rmin rmax segments 1 m))

/-- Weighting parameter lower left: (1 - (li - disc0)) * (1 - (disc1 - lj)). -/
noncomputable def wLL (ci cj : ℝ) (rmin rmax : ℤ) (segments : ℕ) (m : ℕ) : ℝ :=
  (1 - ((bLi ci cj rmin rmax segments m : ℝ) - discFlat ci cj rmin rmax segments 0 m)) *
  (1 - (discFlat ci cj rmin rmax segments 1 m - (bLj ci cj rmin rmax segments m : ℝ)))

/-- Weighting parameter lower right: (1 - (li - disc0)) * (1 - (rj - disc1)). -/
noncomputable def wLR (ci cj : ℝ) (rmin rmax : ℤ) (segments : ℕ) (m : ℕ) : ℝ :=
  (1 - ((bLi ci cj rmin rmax segments m : ℝ) - discFlat ci cj rmin rmax segments 0 m)) *
  (1 - ((bRj ci cj rmin rmax segments m : ℝ) - discFlat ci cj rmin rmax segments 1 m))

/-- One flattened element of the bilinear accumulation
DP[ui, lj] * wul + DP[ui, rj] * wur + DP[li, lj] * wll + DP[li, rj] * wlr;
none when any of the four fancy-indexing lookups raises IndexError. -/
noncomputable def bilinearAt (DP : Arr2) (ci cj : ℝ) (rmin rmax : ℤ) (segments : ℕ)
    (m : ℕ) : Option ℝ :=
  (DP.get (bUi ci cj rmin rmax segments m) (bLj ci cj rmin rmax segments m)).bind fun vul =>
  (DP.get (bUi ci cj rmin rmax segments m) (bRj ci cj rmin rmax segments m)).bind fun vur =>
  (DP.get (bLi ci cj rmin rmax segments m) (bLj ci cj rmin rmax segments m)).bind fun vll =>
  (DP.get (bLi ci cj rmin rmax segments m) (bRj ci cj rmin rmax segments m)).map fun vlr =>
    vul * wUL ci cj rmin rmax segments m + vur * wUR ci cj rmin rmax segments m +
    vll * wLL ci cj rmin rmax segments m + vlr * wLR ci cj rmin rmax segments m

/-- All four fancy-indexing lookups of the bilinear branch succeed at every
flattened position. -/
def bilinearOk (DP : Arr2) (ci cj : ℝ) (rmin rmax : ℤ) (segments : ℕ) : Prop :=
  ∀ m < segments * (rmax - rmin).toNat,
    (bilinearAt DP ci cj rmin rmax segments m).isSome = true

/-- The area-weighting mesh rweighting = np.meshgrid(azi, radweight)[1] of
shape (rmax - rmin, segments): entry (k, s) is radweight[k]
= (rmin + k) * 2 * pi / segments. -/
noncomputable def rweighting (rmin rmax : ℤ) (segments : ℕ) : Arr2 where
  rows := (rmax - rmin).toNat
  cols := segments
  entry := fun k _ => ((rmin : ℝ) + (k : ℝ)) * 2 * π / (segments : ℕ)

/-- The array produced by the simple branch of polarttransform, including
the final area weighting: pt = lookups reshaped to (segments, R) then
transposed, and PTDP = pt * rweighting. -/
noncomputable def ptdpSimple (DP : Arr2) (ci cj : ℝ) (rmin rmax : ℤ) (segments : ℕ) : Arr2 :=
  emul
    (transpose (reshape2 (fun m => (simpleLookup DP ci cj rmin rmax segments m).getD 0)
      segments (rmax - rmin).toNat))
    (rweighting rmin rmax segments)

/-- The array produced by the bilinear branch of polarttransform, including
the final area weighting. -/
noncomputable def ptdpBilinear (DP : Arr2) (ci cj : ℝ) (rmin rmax : ℤ) (segments : ℕ) : Arr2 :=
  emul
    (transpose (reshape2 (fun m => (bilinearAt DP ci cj rmin rmax segments m).getD 0)
      segments (rmax - rmin).toNat))
    (rweighting rmin rmax segments)

open Classical in
/-- Shallow embedding of polarttransform (process/polar.py, lines 55 to 136).
The result is none exactly when the numpy fancy indexing into DP raises an
IndexError, which propagates to the caller. -/
noncomputable def polarttransform (DP : Arr2) (ci cj : ℝ) (rmin rmax : ℤ)
    (segments : ℕ) (simple : Bool) : Option Arr2 :=
  if simple then
    if simpleOk DP ci cj rmin rmax segments then
      some (ptdpSimple DP ci cj rmin rmax segments)
    else none
  else
    if bilinearOk DP ci cj rmin rmax segments then
      some (ptdpBilinear DP ci cj rmin rmax segments)
    else none

/-! Embedding of io/read.py: read_mib_to_np.  The memory-mapped file is
modelled by its byte count; the functions below track the shape of the
returned 4D view and the error behaviour, which is all the claims about
this reader concern. -/

/-- Numpy element type selected for a Merlin bit depth. -/
inductive DType where
  | u8
  | u16
deriving DecidableEq

/-- The bit-depth dispatch of read_mib_to_np (io/read.py, lines 48 to 55):
12 maps to np.uint16 with 2 bytes per element, 6 and 1 map to np.uint8 with
1 byte per element, anything else raises. -/
def bitDepthParams (bd : ℤ) : Option (DType × ℕ) :=
  if bd = 12 then some (DType.u16, 2)
  else if bd = 6 then some (DType.u8, 1)
  else if bd = 1 then some (DType.u8, 1)
  else none

/-- Shape of the 4D array returned after the flyback slice
data[:, :-flybackpix] (taken only when flybackpix > 0). -/
def mibShape (x ydim kx ky flybackpix : ℕ) : ℕ × ℕ × ℕ × ℕ :=
  if 0 < flybackpix then (x, ydim + flybackpix - flybackpix, kx, ky)
  else (x, ydim + flybackpix, kx, ky)

/-- Shallow embedding of read_mib_to_np (io/read.py, lines 10 to 87),
abstracted over the size in bytes of the file at filepath.  A np.memmap of
shape (x, y) whose record dtype occupies itemBytes bytes succeeds when
x * y * itemBytes bytes are available, and raises ValueError otherwise;
the except clause catches exactly the first such failure and recomputes the
outer dimension as int(file_size / ((ydim + 1) * (kx*ky*b + header +
footer))), which is natural-number division in exact arithmetic.  A
ValueError raised by the second memmap is not caught.  The result records
the shape of the returned 4D array. -/
def read_mib_to_np (fileSize xdim ydim kx ky flybackpix : ℕ) (bit_depth : ℤ)
    (header footer : ℕ) : Except String (ℕ × ℕ × ℕ × ℕ) :=
  match bitDepthParams bit_depth with
  | none => Except.error ("Incorrect data type selected, please enter 12, 6 or 1")
  | some (_, b) =>
    let itemBytes := header + kx * ky * b + footer
    if xdim * (ydim + flybackpix) * itemBytes ≤ fileSize then
      Except.ok (mibShape xdim ydim kx ky flybackpix)
    else
      let xdim2 := fileSize / ((ydim + 1) * (kx * ky * b + header + footer))
      if xdim2 * (ydim + flybackpix) * itemBytes ≤ fileSize then
        Except.ok (mibShape xdim2 ydim kx ky flybackpix)
      else
        Except.error ("ValueError")

/-! Embedding of io/directorylisting.py: file_list. -/

/-- The python values a caller might pass as the searchterm argument;
isinstance(searchterm, str) holds exactly for the str constructor. -/
inductive PyVal where
  | str (s : String)
  | int (n : ℤ)
  | bool (b : Bool)
  | pyNone
deriving DecidableEq

/-- Glob matching as performed by fnmatch.fnmatch on a POSIX system
(os.path.normcase is the identity there): star matches any run of
characters, question mark matches exactly one character, and every other
pattern character matches itself literally.  fnmatch character classes in
square brackets are not exercised by any claim and are treated as literal
characters. -/
def globMatch : List Char → List Char → Bool
  | [], [] => true
  | [], _ :: _ => false
  | '*' :: ps, [] => globMatch ps []
  | '*' :: ps, c :: cs => globMatch ps (c :: cs) || globMatch ('*' :: ps) cs
  | '?' :: ps, _ :: cs => globMatch ps cs
  | p :: ps, c :: cs => p = c && globMatch ps cs
  | _ :: _, [] => false
termination_by ps cs => ps.length + cs.length

/-- fnmatch.fnmatch(file, searchterm). -/
def fnmatch (file pattern : String) : Bool := globMatch pattern.toList file.toList

/-- Insert a string into an already ascending list (helper for sorted). -/
def insertAsc (s : String) : List String → List String
  | [] => [s]
  | t :: ts => if s ≤ t then s :: t :: ts else t :: insertAsc s ts

/-- The python builtin sorted on a list of strings (ascending lexicographic
order), as an insertion sort. -/
def pySorted : List String → List String
  | [] => []
  | s :: ss => insertAsc s (pySorted ss)

/-- Result of file_list: either the sorted list of matching names, or the
failure path for a non-string searchterm, in which the code prints the given
error message and falls through returning None instead of a list. -/
inductive FileListResult where
  | ok (files : List String)
  | invalidArgument (msg : String)
deriving DecidableEq

/-- Shallow embedding of file_list (io/directorylisting.py, lines 6 to 27),
abstracted over the directory listing os.listdir(path) returns. -/
def file_list (listing : List String) (searchterm : PyVal) : FileListResult :=
  match searchterm with
  | PyVal.str pat => FileListResult.ok (pySorted (listing.filter (fun f => fnmatch f pat)))
  | _ => FileListResult.invalidArgument ("Error: use a text string as search term!")

/-! General helper lemmas about the embedded primitives. -/

lemma toInt16_eq (z : ℤ) (h1 : -(2 ^ 15) ≤ z) (h2 : z < 2 ^ 15) : toInt16 z = z := by
  unfold toInt16
  have h : (z + 2 ^ 15) % 2 ^ 16 = z + 2 ^ 15 := Int.emod_eq_of_lt (by omega) (by omega)
  omega

lemma npRound_intCast (n : ℤ) : npRound ((n : ℤ) : ℝ) = n := by
  unfold npRound
  rw [Int.fract_intCast, if_neg (by norm_num)]
  exact round_intCast n

lemma toInt16_npRound_ofInt (x : ℝ) (a : ℤ) (hx : x = (a : ℝ))
    (h1 : -(2 ^ 15) ≤ a) (h2 : a < 2 ^ 15) : toInt16 (npRound x) = a := by
  rw [hx, npRound_intCast]
  exact toInt16_eq a h1 h2

lemma npIndex_of_nonneg (n : ℕ) (i : ℤ) (h0 : 0 ≤ i) (h : i < (n : ℤ)) :
    npIndex n i = some i.toNat := by
  unfold npIndex
  rw [if_pos ⟨h0, h⟩]

lemma npIndex_negWrap (n : ℕ) (i : ℤ) (h1 : -(n : ℤ) ≤ i) (h2 : i < 0) :
    npIndex n i = some (i + (n : ℤ)).toNat := by
  unfold npIndex
  rw [if_neg (by omega), if_pos ⟨h1, h2⟩]

lemma npIndex_lt (n : ℕ) (i : ℤ) (a : ℕ) (h : npIndex n i = some a) : a < n := by
  unfold npIndex at h
  split_ifs at h with h1 h2 <;> injection h with h <;> omega

lemma Arr2.get_of_npIndex (A : Arr2) (i j : ℤ) (a b : ℕ)
    (ha : npIndex A.rows i = some a) (hb : npIndex A.cols j = some b) :
    A.get i j = some (A.entry a b) := by
  unfold Arr2.get
  rw [ha, hb]

lemma Arr2.get_some_elim (A : Arr2) (i j : ℤ) (v : ℝ) (h : A.get i j = some v) :
    ∃ a b : ℕ, a < A.rows ∧ b < A.cols ∧ v = A.entry a b := by
  unfold Arr2.get at h
  rcases hx : npIndex A.rows i with _ | a <;> rw [hx] at h
  · cases h
  rcases hy : npIndex A.cols j with _ | b <;> rw [hy] at h
  · cases h
  injection h with h
  exact ⟨a, b, npIndex_lt _ _ _ hx, npIndex_lt _ _ _ hy, h.symm⟩

/-! Claim theorems. -/

/-- C2 (corrected): polar_mesh (discfloat) returns a 3D array whose leading
axis selects the coordinate component, but with shape
(2, segments, rmax - rmin): the AZIMUTH index is the middle axis and the
RADIUS index the last axis, the reverse of the claimed order.  Component 0
holds the row coordinates and component 1 the column coordinates. -/
theorem claim2_thm (ci cj : ℝ) (rmin rmax : ℤ) (segments : ℕ) :
    (discfloat ci cj rmin rmax segments).d0 = 2 ∧
    (discfloat ci cj rmin rmax segments).d1 = segments ∧
    (discfloat ci cj rmin rmax segments).d2 = (rmax - rmin).toNat ∧
    (∀ s k : ℕ,
      (discfloat ci cj rmin rmax segments).entry 0 s k
        = ci - ((rmin : ℝ) + k) * Real.sin ((s : ℝ) * (2 * π / segments)) ∧
      (discfloat ci cj rmin rmax segments).entry 1 s k
        = cj + ((rmin : ℝ) + k) * Real.cos ((s : ℝ) * (2 * π / segments))) := by
  refine ⟨rfl, rfl, rfl, fun s k => ⟨?_, ?_⟩⟩ <;> simp [discfloat] <;> ring

/-- C2 counterexample: at ci = cj = 0, rmin = 1, rmax = 2, segments = 4 the
claimed shape (2, rmax - rmin, segments) = (2, 1, 4) is wrong: the middle
dimension is 4 (the segment count), not rmax - rmin = 1. -/
theorem claim2_counterexample :
    ¬ ((discfloat 0 0 1 2 4).d1 = ((2 : ℤ) - 1).toNat ∧
       (discfloat 0 0 1 2 4).d2 = 4) := by
  intro h
  have h1 := h.1
  simp [discfloat] at h1

/-- C5 (confirmed): the mesh generated by discfloat samples exactly the
radii rmin, rmin + 1, ..., rmax - 1 (one per value of the last index) and
the azimuths phi_s = s * 2 * pi / segments (one per value of the middle
index), and every sampled coordinate pair satisfies
row = ci - radius * sin(phi) and col = cj + radius * cos(phi). -/
theorem claim5_thm (ci cj : ℝ) (rmin rmax : ℤ) (segments : ℕ) :
    (discfloat ci cj rmin rmax segments).d1 = segments ∧
    (discfloat ci cj rmin rmax segments).d2 = (rmax - rmin).toNat ∧
    (∀ ρ : ℤ, (rmin ≤ ρ ∧ ρ < rmax) ↔
      ∃ k : ℕ, k < (rmax - rmin).toNat ∧ ρ = rmin + k) ∧
    (∀ s k : ℕ,
      (discfloat ci cj rmin rmax segments).entry 0 s k
        = ci - ((rmin : ℝ) + k) * Real.sin ((s : ℝ) * (2 * π / segments)) ∧
      (discfloat ci cj rmin rmax segments).entry 1 s k
        = cj + ((rmin : ℝ) + k) * Real.cos ((s : ℝ) * (2 * π / segments))) := by
  refine ⟨rfl, rfl, fun ρ => ⟨fun h => ⟨(ρ - rmin).toNat, by omega, by omega⟩,
    fun ⟨k, hk, hρ⟩ => by omega⟩, fun s k => ⟨?_, ?_⟩⟩ <;> simp [discfloat] <;> ring

/-- C6 (confirmed): EVERY call of read_mib_to_np returns the
unsupported-configuration error if and only if bit_depth is outside
12, 6, 1; moreover, when the bit depth is unsupported the result is the
same for every file size (the file is never consulted, so no file access
occurs and no array is returned); bit depth 12 maps to a two-byte unsigned
element and bit depths 6 and 1 to a one-byte unsigned element. -/
theorem claim6_thm (bd : ℤ) (fileSize xdim ydim kx ky flybackpix header footer : ℕ) :
    (read_mib_to_np fileSize xdim ydim kx ky flybackpix bd header footer
        = Except.error ("Incorrect data type selected, please enter 12, 6 or 1")
      ↔ ¬(bd = 12 ∨ bd = 6 ∨ bd = 1)) ∧
    (¬(bd = 12 ∨ bd = 6 ∨ bd = 1) →
      ∀ fileSize2 : ℕ,
        read_mib_to_np fileSize2 xdim ydim kx ky flybackpix bd header footer
          = read_mib_to_np fileSize xdim ydim kx ky flybackpix bd header footer) ∧
    bitDepthParams 12 = some (DType.u16, 2) ∧
    bitDepthParams 6 = some (DType.u8, 1) ∧
    bitDepthParams 1 = some (DType.u8, 1) := by
  have hnone : ¬(bd = 12 ∨ bd = 6 ∨ bd = 1) → bitDepthParams bd = none := by
    intro h
    push_neg at h
    unfold bitDepthParams
    rw [if_neg h.1, if_neg h.2.1, if_neg h.2.2]
  refine ⟨⟨fun h => ?_, fun h => ?_⟩, fun h fs2 => ?_, rfl, rfl, rfl⟩
  · intro hmem
    have hsome : ∃ p : DType × ℕ, bitDepthParams bd = some p := by
      rcases hmem with rfl | rfl | rfl
      · exact ⟨(DType.u16, 2), rfl⟩
      · exact ⟨(DType.u8, 1), rfl⟩
      · exact ⟨(DType.u8, 1), rfl⟩
    obtain ⟨⟨dt, b⟩, hp⟩ := hsome
    simp only [read_mib_to_np, hp] at h
    split_ifs at h with h1 h2
    all_goals injection h with h
    all_goals simp at h
  · simp [read_mib_to_np, hnone h]
  · simp [read_mib_to_np, hnone h]

/-- C6 witness: at the unsupported bit depth 7 the reader reports the
unsupported-configuration error (instantiated from claim6_thm). -/
theorem claim6_witness :
    read_mib_to_np 0 0 0 0 0 0 7 0 0
      = Except.error ("Incorrect data type selected, please enter 12, 6 or 1") :=
  (claim6_thm 7 0 0 0 0 0 0 0 0).1.mpr (by norm_num)

/-- C10 (confirmed): every successful call of read_mib_to_np with
flybackpix = 0 returns an array whose scan-column dimension is exactly ydim:
the flyback-removal slice is skipped rather than applied with a zero
count. -/
theorem claim10_thm (fileSize xdim ydim kx ky : ℕ) (bd : ℤ) (header footer : ℕ)
    (r : ℕ × ℕ × ℕ × ℕ)
    (h : read_mib_to_np fileSize xdim ydim kx ky 0 bd header footer = Except.ok r) :
    r.2.1 = ydim := by
  simp only [read_mib_to_np] at h
  split at h
  · cases h
  · split at h
    · cases h
      simp [mibShape]
    · split at h
      · cases h
        simp [mibShape]
      · cases h

/-- C10 witness: a concrete successful flybackpix = 0 call keeping all ydim
scan-columns (instantiated from claim10_thm). -/
theorem claim10_witness : (3, 2, 1, 1).2.1 = 2 :=
  claim10_thm 100 3 2 1 1 1 0 0 (3, 2, 1, 1) (by rfl)

/-- C9 (confirmed): for every directory listing and every searchterm that
is not a text string, file_list signals the invalid-argument condition (the
code prints the error text and returns None) and does not return a list. -/
theorem claim9_thm (listing : List String) (v : PyVal)
    (hv : ∀ s : String, v ≠ PyVal.str s) :
    file_list listing v
      = FileListResult.invalidArgument ("Error: use a text string as search term!")
    ∧ ∀ l : List String, file_list listing v ≠ FileListResult.ok l := by
  cases v with
  | str s => exact absurd rfl (hv s)
  | int n => exact ⟨rfl, fun l h => by cases h⟩
  | bool b => exact ⟨rfl, fun l h => by cases h⟩
  | pyNone => exact ⟨rfl, fun l h => by cases h⟩

/-- C9 witness: passing the integer 3 as searchterm signals the
invalid-argument condition (instantiated from claim9_thm). -/
theorem claim9_witness :
    file_list [String.mk [Char.ofNat 97]] (PyVal.int 3)
      = FileListResult.invalidArgument ("Error: use a text string as search term!") :=
  (claim9_thm [String.mk [Char.ofNat 97]] (PyVal.int 3)
    (fun _ h => PyVal.noConfusion h)).1

/-- C7 (corrected): polarttransform fails with an uncaught IndexError, in
either mode, exactly when some sampled pixel index falls outside the numpy
index range [-extent, extent) of the corresponding axis of DP; an index in
[-extent, -1] is NOT an error: numpy wraps it to the far side of the axis
(index + extent), so sample points falling outside the image on the
negative side are silently read from the opposite edge. -/
theorem claim7_thm :
    (∀ (DP : Arr2) (ci cj : ℝ) (rmin rmax : ℤ) (segments : ℕ),
      (polarttransform DP ci cj rmin rmax segments true = none ↔
        ¬ simpleOk DP ci cj rmin rmax segments) ∧
      (polarttransform DP ci cj rmin rmax segments false = none ↔
        ¬ bilinearOk DP ci cj rmin rmax segments)) ∧
    (∀ (n : ℕ) (i : ℤ), npIndex n i = none ↔ i < -(n : ℤ) ∨ (n : ℤ) ≤ i) ∧
    (∀ (n : ℕ) (i : ℤ), -(n : ℤ) ≤ i → i < 0 →
      npIndex n i = some (i + (n : ℤ)).toNat) := by
  refine ⟨fun DP ci cj rmin rmax segments => ⟨?_, ?_⟩, fun n i => ?_,
    fun n i h1 h2 => npIndex_negWrap n i h1 h2⟩
  · by_cases h : simpleOk DP ci cj rmin rmax segments <;>
      simp [polarttransform, h]
  · by_cases h : bilinearOk DP ci cj rmin rmax segments <;>
      simp [polarttransform, h]
  · unfold npIndex
    split_ifs with h1 h2 <;> simp <;> omega

/-- C7 witness: the negative index -1 on an axis of extent 5 is accepted by
numpy indexing and wraps to index 4 (instantiated from claim7_thm). -/
theorem claim7_witness : npIndex 5 (-1) = some 4 := by
  have h := claim7_thm.2.2 5 (-1) (by norm_num) (by norm_num)
  simpa using h

/-- C3 (amended, for the default flybackpix = 1): for a file holding
exactly k complete scan-rows of bytes, 1 ≤ k < xdim, the reader recomputes
the outer dimension as floor(file_size / ((ydim + 1) * record_bytes)) = k,
re-views the file, and returns a k-row array without raising and without
reading past end-of-file. -/
theorem claim3_thm (xdim ydim kx ky : ℕ) (bd : ℤ) (header footer : ℕ)
    (dt : DType) (b : ℕ) (hbd : bitDepthParams bd = some (dt, b)) (k : ℕ)
    (hrec : 0 < kx * ky * b + header + footer) (_hk1 : 1 ≤ k) (hkx : k < xdim) :
    read_mib_to_np (k * ((ydim + 1) * (kx * ky * b + header + footer)))
        xdim ydim kx ky 1 bd header footer
      = Except.ok (k, ydim, kx, ky)
    ∧ k * (ydim + 1) * (header + kx * ky * b + footer)
        ≤ k * ((ydim + 1) * (kx * ky * b + header + footer)) := by
  have hEq : header + kx * ky * b + footer = kx * ky * b + header + footer := by omega
  have hposRow : 0 < (ydim + 1) * (kx * ky * b + header + footer) :=
    Nat.mul_pos (Nat.succ_pos ydim) hrec
  have hle : k * (ydim + 1) * (header + kx * ky * b + footer)
      ≤ k * ((ydim + 1) * (kx * ky * b + header + footer)) := by
    rw [hEq, Nat.mul_assoc]
  refine ⟨?_, hle⟩
  simp only [read_mib_to_np, hbd]
  rw [if_neg ?hfail]
  case hfail =>
    intro hcontra
    rw [hEq, Nat.mul_assoc] at hcontra
    have := Nat.le_of_mul_le_mul_right hcontra hposRow
    omega
  rw [Nat.mul_div_cancel _ hposRow]
  rw [if_pos (by rw [hEq, Nat.mul_assoc])]
  simp [mibShape]

/-- C3 counterexample: with flybackpix = 2 (ydim = 1, xdim = 5, 1x1 frames
of one byte, no header or footer) a file of exactly 2 complete scan-rows (6
bytes) makes the fallback recompute an outer dimension of 3, whose re-view
needs 9 bytes: the second memmap raises an uncaught ValueError, so the
claim (which quantifies over every truncated frame file) fails. -/
theorem claim3_counterexample :
    6 = 2 * ((1 + 2) * (0 + 1 * 1 * 1 + 0)) ∧ 2 < 5 ∧
    read_mib_to_np 6 5 1 1 1 2 1 0 0 = Except.error ("ValueError") :=
  ⟨by norm_num, by norm_num, rfl⟩

/-- C3 witness: with flybackpix = 1 a 6-byte file holding 3 complete
2-byte scan-rows (ydim = 1, 1x1 one-byte frames) is read back as exactly 3
scan-rows (instantiated from claim3_thm). -/
theorem claim3_witness :
    read_mib_to_np 6 5 1 1 1 1 1 0 0 = Except.ok (3, 1, 1, 1) := by
  have h := (claim3_thm 5 1 1 1 1 0 0 DType.u8 1 (by rfl) 3 (by norm_num)
    (by norm_num) (by norm_num)).1
  norm_num at h
  exact h

/-- C1 (amended): whenever polarttransform returns (in either mode), the
result is a 2D array of shape (rmax - rmin, segments): RADIUS is the
leading output axis and azimuth the trailing one -- the transpose of the
claimed (segments, rmax - rmin) layout. -/
theorem claim1_thm (DP : Arr2) (ci cj : ℝ) (rmin rmax : ℤ) (segments : ℕ)
    (simple : Bool) (A : Arr2)
    (h : polarttransform DP ci cj rmin rmax segments simple = some A) :
    A.rows = (rmax - rmin).toNat ∧ A.cols = segments := by
  cases simple
  · simp only [polarttransform] at h
    rw [if_neg Bool.false_ne_true] at h
    by_cases hb : bilinearOk DP ci cj rmin rmax segments
    · rw [if_pos hb] at h
      injection h with h
      subst h
      exact ⟨rfl, rfl⟩
    · rw [if_neg hb] at h
      cases h
  · simp only [polarttransform] at h
    rw [if_pos trivial] at h
    by_cases hb : simpleOk DP ci cj rmin rmax segments
    · rw [if_pos hb] at h
      injection h with h
      subst h
      exact ⟨rfl, rfl⟩
    · rw [if_neg hb] at h
      cases h

/-! Concrete evaluation helpers: the rmin = 1, rmax = 2, segments = 4 mesh.
Here R = 1, so the flattened index m equals the azimuth index s, the radius
index is 0, the single radius is 1, and the four azimuths are 0, pi/2, pi
and 3*pi/2.  The sampled coordinates are exactly the four integer-valued
points (ci, cj+1), (ci-1, cj), (ci, cj-1), (ci+1, cj). -/

lemma disc4_m0 (ci cj : ℝ) :
    discFlat ci cj 1 2 4 0 0 = ci ∧ discFlat ci cj 1 2 4 1 0 = cj + 1 := by
  constructor
  · simp [discFlat, discfloat]
  · simp [discFlat, discfloat]
    ring

lemma disc4_m1 (ci cj : ℝ) :
    discFlat ci cj 1 2 4 0 1 = ci - 1 ∧ discFlat ci cj 1 2 4 1 1 = cj := by
  have e : (2 * π / 4 : ℝ) = π / 2 := by ring
  constructor
  · simp only [discFlat, discfloat]
    norm_num
    rw [e, Real.sin_pi_div_two]
    ring
  · simp only [discFlat, discfloat]
    norm_num
    rw [e, Real.cos_pi_div_two]

lemma disc4_m2 (ci cj : ℝ) :
    discFlat ci cj 1 2 4 0 2 = ci ∧ discFlat ci cj 1 2 4 1 2 = cj - 1 := by
  have e : (2 * (2 * π / 4) : ℝ) = π := by ring
  constructor
  · simp only [discFlat, discfloat]
    norm_num
    rw [e, Real.sin_pi]
  · simp only [discFlat, discfloat]
    norm_num
    rw [e, Real.cos_pi]
    ring

lemma disc4_m3 (ci cj : ℝ) :
    discFlat ci cj 1 2 4 0 3 = ci + 1 ∧ discFlat ci cj 1 2 4 1 3 = cj := by
  have e : (3 * (2 * π / 4) : ℝ) = π + π / 2 := by ring
  constructor
  · simp only [discFlat, discfloat]
    norm_num
    rw [e, Real.sin_add, Real.sin_pi, Real.cos_pi, Real.sin_pi_div_two,
      Real.cos_pi_div_two]
    ring
  · simp only [discFlat, discfloat]
    norm_num
    rw [e, Real.cos_add, Real.sin_pi, Real.cos_pi, Real.sin_pi_div_two,
      Real.cos_pi_div_two]
    ring

lemma simplePos_ofInt (ci cj : ℝ) (rmin rmax : ℤ) (segments : ℕ) (c m : ℕ) (a : ℤ)
    (hx : discFlat ci cj rmin rmax segments c m = (a : ℝ))
    (h1 : -(2 ^ 15) ≤ a) (h2 : a < 2 ^ 15) :
    simplePos ci cj rmin rmax segments c m = a := by
  unfold simplePos
  exact toInt16_npRound_ofInt _ a hx h1 h2

lemma floorCeil_ofInt (x : ℝ) (a : ℤ) (h : x = (a : ℝ)) : ⌊x⌋ = a ∧ ⌈x⌉ = a := by
  subst h
  exact ⟨Int.floor_intCast a, Int.ceil_intCast a⟩

/-- A constant 5 x 5 test image. -/
noncomputable def DPone : Arr2 where
  rows := 5
  cols := 5
  entry := fun _ _ => 1

/-- A 5 x 5 test image with pairwise distinct entries 10 * row + col. -/
noncomputable def DPgrid : Arr2 where
  rows := 5
  cols := 5
  entry := fun a b => 10 * (a : ℝ) + (b : ℝ)

/-- A constant 7 x 7 test image (for the bilinear branch). -/
noncomputable def DPone7 : Arr2 where
  rows := 7
  cols := 7
  entry := fun _ _ => 1

lemma lkOne0 : simpleLookup DPone 2 2 1 2 4 0 = some 1 := by
  unfold simpleLookup
  rw [simplePos_ofInt 2 2 1 2 4 0 0 2 (by rw [(disc4_m0 2 2).1]; norm_num)
        (by norm_num) (by norm_num),
      simplePos_ofInt 2 2 1 2 4 1 0 3 (by rw [(disc4_m0 2 2).2]; norm_num)
        (by norm_num) (by norm_num)]
  rfl

lemma lkOne1 : simpleLookup DPone 2 2 1 2 4 1 = some 1 := by
  unfold simpleLookup
  rw [simplePos_ofInt 2 2 1 2 4 0 1 1 (by rw [(disc4_m1 2 2).1]; norm_num)
        (by norm_num) (by norm_num),
      simplePos_ofInt 2 2 1 2 4 1 1 2 (by rw [(disc4_m1 2 2).2]; norm_num)
        (by norm_num) (by norm_num)]
  rfl

lemma lkOne2 : simpleLookup DPone 2 2 1 2 4 2 = some 1 := by
  unfold simpleLookup
  rw [simplePos_ofInt 2 2 1 2 4 0 2 2 (by rw [(disc4_m2 2 2).1]; norm_num)
        (by norm_num) (by norm_num),
      simplePos_ofInt 2 2 1 2 4 1 2 1 (by rw [(disc4_m2 2 2).2]; norm_num)
        (by norm_num) (by norm_num)]
  rfl

lemma lkOne3 : simpleLookup DPone 2 2 1 2 4 3 = some 1 := by
  unfold simpleLookup
  rw [simplePos_ofInt 2 2 1 2 4 0 3 3 (by rw [(disc4_m3 2 2).1]; norm_num)
        (by norm_num) (by norm_num),
      simplePos_ofInt 2 2 1 2 4 1 3 2 (by rw [(disc4_m3 2 2).2]; norm_num)
        (by norm_num) (by norm_num)]
  rfl

lemma hOkOne : simpleOk DPone 2 2 1 2 4 := by
  intro m hm
  norm_num at hm
  interval_cases m
  · rw [lkOne0]; rfl
  · rw [lkOne1]; rfl
  · rw [lkOne2]; rfl
  · rw [lkOne3]; rfl

lemma hEvalOne :
    polarttransform DPone 2 2 1 2 4 true = some (ptdpSimple DPone 2 2 1 2 4) := by
  simp only [polarttransform]
  rw [if_pos trivial, if_pos hOkOne]

lemma ptdpOne_entry00 : (ptdpSimple DPone 2 2 1 2 4).entry 0 0 = π / 2 := by
  simp only [ptdpSimple, emul, transpose, reshape2, rweighting]
  norm_num [lkOne0]
  ring

/-- C1 counterexample: at segments = 4 and rmax - rmin = 1 (with all sample
coordinates in bounds) the returned array has 1 row and 4 columns, not the
claimed (segments, rmax - rmin) = (4, 1): azimuth is the TRAILING output
axis. -/
theorem claim1_counterexample :
    ∃ A, polarttransform DPone 2 2 1 2 4 true = some A ∧
      ¬(A.rows = 4 ∧ A.cols = ((2 : ℤ) - 1).toNat) := by
  refine ⟨_, hEvalOne, ?_⟩
  intro h
  have h1 := h.1
  norm_num [ptdpSimple, emul, transpose, reshape2] at h1

/-- C1 witness: the amended shape statement instantiated at the concrete
in-bounds call (apply claim1_thm). -/
theorem claim1_witness :
    ∃ A, polarttransform DPone 2 2 1 2 4 true = some A ∧
      A.rows = ((2 : ℤ) - 1).toNat ∧ A.cols = 4 := by
  refine ⟨_, hEvalOne, ?_, ?_⟩
  · exact (claim1_thm DPone 2 2 1 2 4 true _ hEvalOne).1
  · exact (claim1_thm DPone 2 2 1 2 4 true _ hEvalOne).2

/-- C8 (amended): in nearest-pixel mode, at a sample point whose mesh
coordinates land exactly on integer pixel coordinates (a, b) inside DP, the
output entry at (radius index k, azimuth index s) is the source pixel
DP[a][b] MULTIPLIED by the area-weighting factor (rmin + k) * 2 * pi /
segments, not the bare pixel value. -/
theorem claim8_thm (DP : Arr2) (ci cj : ℝ) (rmin rmax : ℤ) (segments : ℕ) (A : Arr2)
    (hA : polarttransform DP ci cj rmin rmax segments true = some A)
    (k s : ℕ) (a b : ℤ)
    (ha : discFlat ci cj rmin rmax segments 0 (s * (rmax - rmin).toNat + k) = (a : ℝ))
    (hb : discFlat ci cj rmin rmax segments 1 (s * (rmax - rmin).toNat + k) = (b : ℝ))
    (ha0 : 0 ≤ a) (haN : a < (DP.rows : ℤ)) (ha16 : a < 2 ^ 15)
    (hb0 : 0 ≤ b) (hbN : b < (DP.cols : ℤ)) (hb16 : b < 2 ^ 15) :
    A.entry k s = DP.entry a.toNat b.toNat * (((rmin : ℝ) + k) * 2 * π / segments) := by
  simp only [polarttransform] at hA
  rw [if_pos trivial] at hA
  by_cases hok : simpleOk DP ci cj rmin rmax segments
  case neg => rw [if_neg hok] at hA; cases hA
  rw [if_pos hok] at hA
  injection hA with hA
  subst hA
  simp only [ptdpSimple, emul, transpose, reshape2, rweighting]
  unfold simpleLookup
  rw [simplePos_ofInt ci cj rmin rmax segments 0 _ a ha (by omega) ha16,
      simplePos_ofInt ci cj rmin rmax segments 1 _ b hb (by omega) hb16,
      Arr2.get_of_npIndex DP a b a.toNat b.toNat
        (npIndex_of_nonneg _ _ ha0 haN) (npIndex_of_nonneg _ _ hb0 hbN)]
  simp

/-- C8 counterexample: at ci = cj = 2, rmin = 1, rmax = 2, segments = 4 the
first sample point lands exactly on the integer pixel (2, 3) and
DP[2][3] = 1, yet the returned entry is pi/2: the bare source-pixel value
is NOT reproduced (the area weighting multiplies it by
(rmin + 0) * 2 * pi / segments = pi / 2). -/
theorem claim8_counterexample :
    ∃ A, polarttransform DPone 2 2 1 2 4 true = some A ∧
      discFlat 2 2 1 2 4 0 0 = ((2 : ℤ) : ℝ) ∧
      discFlat 2 2 1 2 4 1 0 = ((3 : ℤ) : ℝ) ∧
      DPone.entry 2 3 = 1 ∧
      A.entry 0 0 ≠ DPone.entry 2 3 := by
  refine ⟨_, hEvalOne, by rw [(disc4_m0 2 2).1]; norm_num,
    by rw [(disc4_m0 2 2).2]; norm_num, rfl, ?_⟩
  rw [ptdpOne_entry00, show DPone.entry 2 3 = 1 from rfl]
  intro hcontra
  have hπ := Real.pi_gt_three
  linarith

/-- C8 witness: the amended statement instantiated at the same sample point
(apply claim8_thm): the output entry equals DP[2][3] * pi / 2 = pi / 2. -/
theorem claim8_witness :
    ∃ A, polarttransform DPone 2 2 1 2 4 true = some A ∧ A.entry 0 0 = π / 2 := by
  refine ⟨_, hEvalOne, ?_⟩
  have h := claim8_thm DPone 2 2 1 2 4 _ hEvalOne 0 0 2 3
    (by norm_num [(disc4_m0 2 2).1]) (by norm_num [(disc4_m0 2 2).2])
    (by norm_num) (by norm_num [DPone]) (by norm_num)
    (by norm_num) (by norm_num [DPone]) (by norm_num)
  rw [h]
  norm_num [DPone]
  ring

lemma lkGrid0 : simpleLookup DPgrid 0 2 1 2 4 0 = some (DPgrid.entry 0 3) := by
  unfold simpleLookup
  rw [simplePos_ofInt 0 2 1 2 4 0 0 0 (by rw [(disc4_m0 0 2).1]; norm_num)
        (by norm_num) (by norm_num),
      simplePos_ofInt 0 2 1 2 4 1 0 3 (by rw [(disc4_m0 0 2).2]; norm_num)
        (by norm_num) (by norm_num)]
  rfl

lemma lkGrid1 : simpleLookup DPgrid 0 2 1 2 4 1 = some (DPgrid.entry 4 2) := by
  unfold simpleLookup
  rw [simplePos_ofInt 0 2 1 2 4 0 1 (-1) (by rw [(disc4_m1 0 2).1]; norm_num)
        (by norm_num) (by norm_num),
      simplePos_ofInt 0 2 1 2 4 1 1 2 (by rw [(disc4_m1 0 2).2]; norm_num)
        (by norm_num) (by norm_num)]
  rfl

lemma lkGrid2 : simpleLookup DPgrid 0 2 1 2 4 2 = some (DPgrid.entry 0 1) := by
  unfold simpleLookup
  rw [simplePos_ofInt 0 2 1 2 4 0 2 0 (by rw [(disc4_m2 0 2).1]; norm_num)
        (by norm_num) (by norm_num),
      simplePos_ofInt 0 2 1 2 4 1 2 1 (by rw [(disc4_m2 0 2).2]; norm_num)
        (by norm_num) (by norm_num)]
  rfl

lemma lkGrid3 : simpleLookup DPgrid 0 2 1 2 4 3 = some (DPgrid.entry 1 2) := by
  unfold simpleLookup
  rw [simplePos_ofInt 0 2 1 2 4 0 3 1 (by rw [(disc4_m3 0 2).1]; norm_num)
        (by norm_num) (by norm_num),
      simplePos_ofInt 0 2 1 2 4 1 3 2 (by rw [(disc4_m3 0 2).2]; norm_num)
        (by norm_num) (by norm_num)]
  rfl

lemma hOkGrid : simpleOk DPgrid 0 2 1 2 4 := by
  intro m hm
  norm_num at hm
  interval_cases m
  · rw [lkGrid0]; rfl
  · rw [lkGrid1]; rfl
  · rw [lkGrid2]; rfl
  · rw [lkGrid3]; rfl

lemma hEvalGrid :
    polarttransform DPgrid 0 2 1 2 4 true = some (ptdpSimple DPgrid 0 2 1 2 4) := by
  simp only [polarttransform]
  rw [if_pos trivial, if_pos hOkGrid]

/-- C7 counterexample: with center (0, 2) the sample at azimuth index 1
rounds to the row index -1, which lies outside the shape of the 5 x 5 image
DPgrid; the claim says the call must fail with an index error, but it
succeeds, and the entry at (radius 0, azimuth 1) is read from the WRAPPED
row 4: DPgrid[4][2] = 42 enters the output (scaled by the area weight
pi / 2). -/
theorem claim7_counterexample :
    ∃ A, polarttransform DPgrid 0 2 1 2 4 true = some A ∧
      simplePos 0 2 1 2 4 0 1 = -1 ∧
      DPgrid.entry 4 2 = 42 ∧
      A.entry 0 1 = 42 * (π / 2) := by
  refine ⟨_, hEvalGrid,
    simplePos_ofInt 0 2 1 2 4 0 1 (-1) (by rw [(disc4_m1 0 2).1]; norm_num)
      (by norm_num) (by norm_num),
    by norm_num [DPgrid], ?_⟩
  simp only [ptdpSimple, emul, transpose, reshape2, rweighting]
  norm_num [lkGrid1]
  norm_num [DPgrid]
  ring

lemma bcorners_ofInt (ci cj : ℝ) (rmin rmax : ℤ) (segments : ℕ) (m : ℕ) (a b : ℤ)
    (ha : discFlat ci cj rmin rmax segments 0 m = (a : ℝ))
    (hb : discFlat ci cj rmin rmax segments 1 m = (b : ℝ))
    (ha1 : -(2 ^ 15) ≤ a) (ha2 : a + 1 < 2 ^ 15)
    (hb1 : -(2 ^ 15) ≤ b) (hb2 : b + 1 < 2 ^ 15) :
    bUi ci cj rmin rmax segments m = a ∧ bLi ci cj rmin rmax segments m = a + 1 ∧
    bLj ci cj rmin rmax segments m = b ∧ bRj ci cj rmin rmax segments m = b + 1 := by
  obtain ⟨hfa, hca⟩ := floorCeil_ofInt _ a ha
  obtain ⟨hfb, hcb⟩ := floorCeil_ofInt _ b hb
  have hui : bUi ci cj rmin rmax segments m = a := by
    unfold bUi
    rw [hfa]
    exact toInt16_eq a ha1 (by omega)
  have hlr : bLiRaw ci cj rmin rmax segments m = a := by
    unfold bLiRaw
    rw [hca]
    exact toInt16_eq a ha1 (by omega)
  have hlj : bLj ci cj rmin rmax segments m = b := by
    unfold bLj
    rw [hfb]
    exact toInt16_eq b hb1 (by omega)
  have hrr : bRjRaw ci cj rmin rmax segments m = b := by
    unfold bRjRaw
    rw [hcb]
    exact toInt16_eq b hb1 (by omega)
  refine ⟨hui, ?_, hlj, ?_⟩
  · unfold bLi
    rw [hlr, hui, if_pos rfl]
    exact toInt16_eq _ (by omega) ha2
  · unfold bRj
    rw [hrr, hlj, if_pos rfl]
    exact toInt16_eq _ (by omega) hb2

/-- C4 (confirmed): on a constant-valued image the bilinear branch of
polarttransform returns the constant times the area-weighting factor
(rmin + k) * 2 * pi / segments at every output position; equivalently the
four bilinear corner weights sum to 1 at every sample point, including
exact integer hits where the far neighbour is forced one pixel out.  The
smallness hypothesis keeps the int16 casts of the source faithful
(no wrap-around of the corner indices). -/
theorem claim4_thm (DP : Arr2) (c ci cj : ℝ) (rmin rmax : ℤ) (segments : ℕ) (A : Arr2)
    (hconst : ∀ a b : ℕ, a < DP.rows → b < DP.cols → DP.entry a b = c)
    (hA : polarttransform DP ci cj rmin rmax segments false = some A)
    (hsmall : ∀ m < segments * (rmax - rmin).toNat,
      -(2 ^ 15) ≤ ⌊discFlat ci cj rmin rmax segments 0 m⌋ ∧
      ⌈discFlat ci cj rmin rmax segments 0 m⌉ + 1 < 2 ^ 15 ∧
      -(2 ^ 15) ≤ ⌊discFlat ci cj rmin rmax segments 1 m⌋ ∧
      ⌈discFlat ci cj rmin rmax segments 1 m⌉ + 1 < 2 ^ 15)
    (k s : ℕ) (hk : k < (rmax - rmin).toNat) (hs : s < segments) :
    A.entry k s = c * (((rmin : ℝ) + k) * 2 * π / segments) := by
  simp only [polarttransform] at hA
  rw [if_neg Bool.false_ne_true] at hA
  by_cases hok : bilinearOk DP ci cj rmin rmax segments
  case neg => rw [if_neg hok] at hA; cases hA
  rw [if_pos hok] at hA
  injection hA with hA
  subst hA
  simp only [ptdpBilinear, emul, transpose, reshape2, rweighting]
  have hmlt : s * (rmax - rmin).toNat + k < segments * (rmax - rmin).toNat := by
    have h1 : s * (rmax - rmin).toNat + k < (s + 1) * (rmax - rmin).toNat := by
      rw [Nat.succ_mul]
      omega
    have h2 : (s + 1) * (rmax - rmin).toNat ≤ segments * (rmax - rmin).toNat :=
      Nat.mul_le_mul_right _ (by omega)
    omega
  set m := s * (rmax - rmin).toNat + k with hm
  have hvm := hok m hmlt
  obtain ⟨hf0, hc0, hf1, hc1⟩ := hsmall m hmlt
  set x := discFlat ci cj rmin rmax segments 0 m with hx
  set y := discFlat ci cj rmin rmax segments 1 m with hy
  have hui : bUi ci cj rmin rmax segments m = ⌊x⌋ := by
    unfold bUi
    rw [← hx]
    exact toInt16_eq _ hf0 (by have h := Int.floor_le_ceil x; omega)
  have hliRaw : bLiRaw ci cj rmin rmax segments m = ⌈x⌉ := by
    unfold bLiRaw
    rw [← hx]
    exact toInt16_eq _ (by have h := Int.floor_le_ceil x; omega) (by omega)
  have hli : bLi ci cj rmin rmax segments m = ⌊x⌋ + 1 := by
    unfold bLi
    rw [hliRaw, hui]
    by_cases hcase : ⌈x⌉ = ⌊x⌋
    · rw [if_pos hcase, hcase]
      exact toInt16_eq _ (by omega) (by omega)
    · rw [if_neg hcase]
      have h1 := Int.floor_le_ceil x
      have h2 := Int.ceil_le_floor_add_one x
      omega
  have hlj : bLj ci cj rmin rmax segments m = ⌊y⌋ := by
    unfold bLj
    rw [← hy]
    exact toInt16_eq _ hf1 (by have h := Int.floor_le_ceil y; omega)
  have hrjRaw : bRjRaw ci cj rmin rmax segments m = ⌈y⌉ := by
    unfold bRjRaw
    rw [← hy]
    exact toInt16_eq _ (by have h := Int.floor_le_ceil y; omega) (by omega)
  have hrj : bRj ci cj rmin rmax segments m = ⌊y⌋ + 1 := by
    unfold bRj
    rw [hrjRaw, hlj]
    by_cases hcase : ⌈y⌉ = ⌊y⌋
    · rw [if_pos hcase]
      exact toInt16_eq _ (by omega) (by omega)
    · rw [if_neg hcase]
      have h1 := Int.floor_le_ceil y
      have h2 := Int.ceil_le_floor_add_one y
      omega
  have hgets : ∀ (i j : ℤ) (v : ℝ), DP.get i j = some v → v = c := by
    intro i j v hget
    obtain ⟨p, q, hp, hq, hv⟩ := Arr2.get_some_elim DP i j v hget
    rw [hv]
    exact hconst p q hp hq
  rcases hg1 : DP.get (bUi ci cj rmin rmax segments m) (bLj ci cj rmin rmax segments m)
    with _ | v1
  · unfold bilinearAt at hvm
    rw [hg1] at hvm
    simp at hvm
  rcases hg2 : DP.get (bUi ci cj rmin rmax segments m) (bRj ci cj rmin rmax segments m)
    with _ | v2
  · unfold bilinearAt at hvm
    rw [hg1, hg2] at hvm
    simp at hvm
  rcases hg3 : DP.get (bLi ci cj rmin rmax segments m) (bLj ci cj rmin rmax segments m)
    with _ | v3
  · unfold bilinearAt at hvm
    rw [hg1, hg2, hg3] at hvm
    simp at hvm
  rcases hg4 : DP.get (bLi ci cj rmin rmax segments m) (bRj ci cj rmin rmax segments m)
    with _ | v4
  · unfold bilinearAt at hvm
    rw [hg1, hg2, hg3, hg4] at hvm
    simp at hvm
  have hval : bilinearAt DP ci cj rmin rmax segments m
      = some (v1 * wUL ci cj rmin rmax segments m + v2 * wUR ci cj rmin rmax segments m +
              v3 * wLL ci cj rmin rmax segments m + v4 * wLR ci cj rmin rmax segments m) := by
    unfold bilinearAt
    rw [hg1, hg2, hg3, hg4]
    rfl
  have hsum : wUL ci cj rmin rmax segments m + wUR ci cj rmin rmax segments m +
      wLL ci cj rmin rmax segments m + wLR ci cj rmin rmax segments m = 1 := by
    unfold wUL wUR wLL wLR
    rw [← hx, ← hy, hui, hli, hlj, hrj]
    push_cast
    ring
  rw [hval]
  simp only [Option.getD_some]
  rw [hgets _ _ _ hg1, hgets _ _ _ hg2, hgets _ _ _ hg3, hgets _ _ _ hg4]
  have hcollect : c * wUL ci cj rmin rmax segments m + c * wUR ci cj rmin rmax segments m +
      c * wLL ci cj rmin rmax segments m + c * wLR ci cj rmin rmax segments m = c := by
    have hfactor : c * wUL ci cj rmin rmax segments m + c * wUR ci cj rmin rmax segments m +
        c * wLL ci cj rmin rmax segments m + c * wLR ci cj rmin rmax segments m
        = c * (wUL ci cj rmin rmax segments m + wUR ci cj rmin rmax segments m +
            wLL ci cj rmin rmax segments m + wLR ci cj rmin rmax segments m) := by
      ring
    rw [hfactor, hsum, mul_one]
  rw [hcollect]

lemma bOk7_0 : (bilinearAt DPone7 3 3 1 2 4 0).isSome = true := by
  obtain ⟨hui, hli, hlj, hrj⟩ := bcorners_ofInt 3 3 1 2 4 0 3 4
    (by rw [(disc4_m0 3 3).1]; norm_num) (by rw [(disc4_m0 3 3).2]; norm_num)
    (by norm_num) (by norm_num) (by norm_num) (by norm_num)
  unfold bilinearAt
  rw [hui, hli, hlj, hrj]
  rfl

lemma bOk7_1 : (bilinearAt DPone7 3 3 1 2 4 1).isSome = true := by
  obtain ⟨hui, hli, hlj, hrj⟩ := bcorners_ofInt 3 3 1 2 4 1 2 3
    (by rw [(disc4_m1 3 3).1]; norm_num) (by rw [(disc4_m1 3 3).2]; norm_num)
    (by norm_num) (by norm_num) (by norm_num) (by norm_num)
  unfold bilinearAt
  rw [hui, hli, hlj, hrj]
  rfl

lemma bOk7_2 : (bilinearAt DPone7 3 3 1 2 4 2).isSome = true := by
  obtain ⟨hui, hli, hlj, hrj⟩ := bcorners_ofInt 3 3 1 2 4 2 3 2
    (by rw [(disc4_m2 3 3).1]; norm_num) (by rw [(disc4_m2 3 3).2]; norm_num)
    (by norm_num) (by norm_num) (by norm_num) (by norm_num)
  unfold bilinearAt
  rw [hui, hli, hlj, hrj]
  rfl

lemma bOk7_3 : (bilinearAt DPone7 3 3 1 2 4 3).isSome = true := by
  obtain ⟨hui, hli, hlj, hrj⟩ := bcorners_ofInt 3 3 1 2 4 3 4 3
    (by rw [(disc4_m3 3 3).1]; norm_num) (by rw [(disc4_m3 3 3).2]; norm_num)
    (by norm_num) (by norm_num) (by norm_num) (by norm_num)
  unfold bilinearAt
  rw [hui, hli, hlj, hrj]
  rfl

lemma hOk7 : bilinearOk DPone7 3 3 1 2 4 := by
  intro m hm
  norm_num at hm
  interval_cases m
  · exact bOk7_0
  · exact bOk7_1
  · exact bOk7_2
  · exact bOk7_3

lemma hEval7 :
    polarttransform DPone7 3 3 1 2 4 false = some (ptdpBilinear DPone7 3 3 1 2 4) := by
  simp only [polarttransform]
  rw [if_neg Bool.false_ne_true, if_pos hOk7]

/-- C4 witness: the bilinear transform of the constant-1 image DPone7 at
center (3, 3), rmin 1, rmax 2, segments 4 has entry pi/2 = 1 * (1 * 2 * pi
/ 4) at radius index 0, azimuth 0 (apply claim4_thm). -/
theorem claim4_witness :
    ∃ A, polarttransform DPone7 3 3 1 2 4 false = some A ∧ A.entry 0 0 = π / 2 := by
  refine ⟨_, hEval7, ?_⟩
  have hsmall : ∀ m < 4 * ((2 : ℤ) - 1).toNat,
      -(2 ^ 15) ≤ ⌊discFlat 3 3 1 2 4 0 m⌋ ∧
      ⌈discFlat 3 3 1 2 4 0 m⌉ + 1 < 2 ^ 15 ∧
      -(2 ^ 15) ≤ ⌊discFlat 3 3 1 2 4 1 m⌋ ∧
      ⌈discFlat 3 3 1 2 4 1 m⌉ + 1 < 2 ^ 15 := by
    intro m hm
    norm_num at hm
    interval_cases m
    · obtain ⟨hf0, hc0⟩ := floorCeil_ofInt (discFlat 3 3 1 2 4 0 0) 3
        (by rw [(disc4_m0 3 3).1]; norm_num)
      obtain ⟨hf1, hc1⟩ := floorCeil_ofInt (discFlat 3 3 1 2 4 1 0) 4
        (by rw [(disc4_m0 3 3).2]; norm_num)
      rw [hf0, hc0, hf1, hc1]
      norm_num
    · obtain ⟨hf0, hc0⟩ := floorCeil_ofInt (discFlat 3 3 1 2 4 0 1) 2
        (by rw [(disc4_m1 3 3).1]; norm_num)
      obtain ⟨hf1, hc1⟩ := floorCeil_ofInt (discFlat 3 3 1 2 4 1 1) 3
        (by rw [(disc4_m1 3 3).2]; norm_num)
      rw [hf0, hc0, hf1, hc1]
      norm_num
    · obtain ⟨hf0, hc0⟩ := floorCeil_ofInt (discFlat 3 3 1 2 4 0 2) 3
        (by rw [(disc4_m2 3 3).1]; norm_num)
      obtain ⟨hf1, hc1⟩ := floorCeil_ofInt (discFlat 3 3 1 2 4 1 2) 2
        (by rw [(disc4_m2 3 3).2]; norm_num)
      rw [hf0, hc0, hf1, hc1]
      norm_num
    · obtain ⟨hf0, hc0⟩ := floorCeil_ofInt (discFlat 3 3 1 2 4 0 3) 4
        (by rw [(disc4_m3 3 3).1]; norm_num)
      obtain ⟨hf1, hc1⟩ := floorCeil_ofInt (discFlat 3 3 1 2 4 1 3) 3
        (by rw [(disc4_m3 3 3).2]; norm_num)
      rw [hf0, hc0, hf1, hc1]
      norm_num
  have h := claim4_thm DPone7 1 3 3 1 2 4 _ (fun _ _ _ _ => rfl) hEval7 hsmall 0 0
    (by norm_num) (by norm_num)
  rw [h]
  norm_num
  ring
